import Mathlib

/-!
Verification of core kernel subsystems of ClankerOS against its
natural-language specification: the physical memory manager (pmm.c), the
paging layer (paging.c), the kernel heap (kheap.c) and the round-robin
scheduler (process.c), shallowly embedded as pure functions over explicit
state records.  Machine integers (uint32_t / size_t / uintptr_t on i386)
are modelled as Nat with explicit reduction modulo 2^32 where the C
arithmetic can wrap.
-/

namespace ClankerOS

/-- Wrap-around 32-bit addition, the semantics of size_t and uintptr_t
addition on the i386 target. -/
def add32 (a b : Nat) : Nat := (a + b) % 4294967296

/-- Wrap-around 32-bit subtraction: a - b computed in uint32_t. -/
def sub32 (a b : Nat) : Nat := (a + (4294967296 - b % 4294967296)) % 4294967296

theorem add32_eq (a b : Nat) (h : a + b < 4294967296) : add32 a b = a + b := by
  simp [add32, Nat.mod_eq_of_lt h]

theorem sub32_eq (a b : Nat) (hb : b ≤ a) (ha : a < 4294967296) (hb32 : b < 4294967296) :
    sub32 a b = a - b := by
  unfold sub32
  rw [Nat.mod_eq_of_lt hb32]
  omega

theorem sub32_lt (a b : Nat) : sub32 a b < 4294967296 := by
  unfold sub32; omega

theorem add32_lt (a b : Nat) : add32 a b < 4294967296 := by
  unfold add32; omega

/-- PAGE_SIZE from pmm.h. -/
def PAGE_SIZE : Nat := 4096

namespace Pmm

/-- State of the physical memory manager (the static variables of pmm.c).
The word array pageBitmap is modelled at bit granularity: bitmap p is the
bit BITMAP_TEST(p), true = page allocated.  bitmapSize counts uint32_t
words as in the C code. -/
structure PmmState where
  bitmap : Nat → Bool
  bitmapSize : Nat
  totalPages : Nat
  freePages : Nat
  usedPages : Nat

/-- pageToAddress from pmm.c. -/
def pageToAddress (page : Nat) : Nat := page * PAGE_SIZE

/-- addressToPage from pmm.c. -/
def addressToPage (addr : Nat) : Nat := addr / PAGE_SIZE

/-- markPageUsed from pmm.c: guard against out-of-range pages, then set the
bit and bump the counters only when the bit was clear. -/
def markPageUsed (s : PmmState) (page : Nat) : PmmState :=
  if s.totalPages ≤ page then s
  else if s.bitmap page = false then
    { s with bitmap := fun p => if p = page then true else s.bitmap p,
             usedPages := add32 s.usedPages 1,
             freePages := sub32 s.freePages 1 }
  else s

/-- markPageFree from pmm.c: clear the bit and adjust the counters only
when the bit was set. -/
def markPageFree (s : PmmState) (page : Nat) : PmmState :=
  if s.totalPages ≤ page then s
  else if s.bitmap page = true then
    { s with bitmap := fun p => if p = page then false else s.bitmap p,
             freePages := add32 s.freePages 1,
             usedPages := sub32 s.usedPages 1 }
  else s

/-- The loop body of markRegionUsed: mark n consecutive pages used starting
at page. -/
def markPagesUsed (s : PmmState) (page : Nat) : Nat → PmmState
  | 0 => s
  | n + 1 => markPagesUsed (markPageUsed s page) (page + 1) n

/-- The loop body of markRegionFree. -/
def markPagesFree (s : PmmState) (page : Nat) : Nat → PmmState
  | 0 => s
  | n + 1 => markPagesFree (markPageFree s page) (page + 1) n

/-- markRegionUsed from pmm.c.  The C computation of endPage uses
uintptr_t arithmetic; for length = 0 the C expression start + length - 1
wraps around while Nat subtraction truncates, so the model is faithful for
length ≥ 1 (no kernel caller passes 0). -/
def markRegionUsed (s : PmmState) (start length : Nat) : PmmState :=
  let startPage := addressToPage start
  let endPage := addressToPage (start + length - 1)
  markPagesUsed s startPage (endPage + 1 - startPage)

/-- markRegionFree from pmm.c, same caveat as markRegionUsed. -/
def markRegionFree (s : PmmState) (start length : Nat) : PmmState :=
  let startPage := addressToPage start
  let endPage := addressToPage (start + length - 1)
  markPagesFree s startPage (endPage + 1 - startPage)

/-- PmmInitialize from pmm.c, for a Multiboot structure without a memory
map (flags bit 6 clear): total pages from mem_lower + mem_upper, the
bitmap starts all-ones, memory above 1 MiB is marked free, then the kernel
image plus bitmap span and the low megabyte are re-marked used.  The
memory-map branch walks loader-provided structures in memory and is not
modelled.  kernelEnd is the address of the linker symbol. -/
def PmmInitialize (memLower memUpper kernelEnd : Nat) : PmmState :=
  let totalPages := (memLower + memUpper) * 1024 / PAGE_SIZE
  let bitmapSize := (totalPages + 31) / 32
  let pageBitmap := ((kernelEnd + 3) % 4294967296) &&& 4294967292
  let s0 : PmmState :=
    { bitmap := fun _ => true, bitmapSize := bitmapSize,
      totalPages := totalPages, usedPages := totalPages, freePages := 0 }
  let s1 := markRegionFree s0 0x100000 (memUpper * 1024)
  let bitmapEnd := pageBitmap + bitmapSize * 4
  let s2 := markRegionUsed s1 0x100000 (bitmapEnd - 0x100000)
  markRegionUsed s2 0 0x100000

/-- A pageBitmap word i equals 0xFFFFFFFF exactly when all 32 of its bits
are set; this is the test PmmAllocPage uses to skip full words. -/
def wordFull (s : PmmState) (i : Nat) : Bool :=
  (List.range 32).all fun b => s.bitmap (32 * i + b)

/-- The inner bit loop of PmmAllocPage: n bits remain, the next to examine
is bit.  Returns some on a return statement of the C loop (address 0 on
the out-of-bounds early return), none if the loop runs off the end of the
word. -/
def pmmScanBitsAux (s : PmmState) (i : Nat) : Nat → Nat → Option (PmmState × Nat)
  | 0, _ => none
  | n + 1, bit =>
    let page := 32 * i + bit
    if s.totalPages ≤ page then some (s, 0)
    else if s.bitmap page = false then some (markPageUsed s page, pageToAddress page)
    else pmmScanBitsAux s i n (bit + 1)

/-- The outer word loop of PmmAllocPage: n words remain, the next index is
i.  Falling off the end returns address 0 (out of memory). -/
def pmmScanWordsAux (s : PmmState) : Nat → Nat → PmmState × Nat
  | 0, _ => (s, 0)
  | n + 1, i =>
    if wordFull s i then pmmScanWordsAux s n (i + 1)
    else
      match pmmScanBitsAux s i 32 0 with
      | some r => r
      | none => pmmScanWordsAux s n (i + 1)

/-- PmmAllocPage from pmm.c: first-fit scan over the bitmap words. -/
def PmmAllocPage (s : PmmState) : PmmState × Nat :=
  pmmScanWordsAux s s.bitmapSize 0

/-- PmmFreePage from pmm.c: silently ignore addresses that are not
page-aligned, otherwise clear the page bit. -/
def PmmFreePage (s : PmmState) (addr : Nat) : PmmState :=
  if addr &&& (PAGE_SIZE - 1) ≠ 0 then s
  else markPageFree s (addressToPage addr)

/-- PmmGetTotalMemory from pmm.c. -/
def PmmGetTotalMemory (s : PmmState) : Nat := s.totalPages * PAGE_SIZE

/-- PmmGetFreeMemory from pmm.c. -/
def PmmGetFreeMemory (s : PmmState) : Nat := s.freePages * PAGE_SIZE

/-- PmmGetUsedMemory from pmm.c. -/
def PmmGetUsedMemory (s : PmmState) : Nat := s.usedPages * PAGE_SIZE

/-- Number of clear (free) bits among the in-range pages. -/
def countFree (s : PmmState) : Nat :=
  ((Finset.range s.totalPages).filter fun p => s.bitmap p = false).card

/-- Well-formedness established by PmmInitialize and preserved by every
PMM operation: the counters agree with the bitmap, the padding bits of the
last bitmap word (pages at or beyond totalPages) are set, the words cover
all pages, and the page count fits in a 32-bit size_t. -/
def PmmWF (s : PmmState) : Prop :=
  s.freePages = countFree s ∧
  s.usedPages = s.totalPages - countFree s ∧
  (∀ p, p < 32 * s.bitmapSize → s.totalPages ≤ p → s.bitmap p = true) ∧
  s.totalPages ≤ 32 * s.bitmapSize ∧
  s.totalPages < 4294967296

theorem countFree_le (s : PmmState) : countFree s ≤ s.totalPages := by
  have h := Finset.card_filter_le (Finset.range s.totalPages)
    (fun p => s.bitmap p = false)
  simpa [countFree] using h

theorem markPageUsed_totalPages (s : PmmState) (page : Nat) :
    (markPageUsed s page).totalPages = s.totalPages := by
  unfold markPageUsed; split_ifs <;> rfl

theorem markPageUsed_bitmapSize (s : PmmState) (page : Nat) :
    (markPageUsed s page).bitmapSize = s.bitmapSize := by
  unfold markPageUsed; split_ifs <;> rfl

theorem markPageFree_totalPages (s : PmmState) (page : Nat) :
    (markPageFree s page).totalPages = s.totalPages := by
  unfold markPageFree; split_ifs <;> rfl

theorem markPageFree_bitmapSize (s : PmmState) (page : Nat) :
    (markPageFree s page).bitmapSize = s.bitmapSize := by
  unfold markPageFree; split_ifs <;> rfl

theorem markPageUsed_bitmap_mono (s : PmmState) (page q : Nat)
    (h : s.bitmap q = true) : (markPageUsed s page).bitmap q = true := by
  unfold markPageUsed
  split_ifs with h1 h2
  · exact h
  · by_cases hq : q = page <;> simp [hq, h]
  · exact h

theorem markPageUsed_bitmap_other (s : PmmState) (page q : Nat)
    (h : q ≠ page) : (markPageUsed s page).bitmap q = s.bitmap q := by
  unfold markPageUsed
  split_ifs with h1 h2
  · rfl
  · simp [h]
  · rfl

theorem markPageFree_bitmap_other (s : PmmState) (page q : Nat)
    (h : q ≠ page) : (markPageFree s page).bitmap q = s.bitmap q := by
  unfold markPageFree
  split_ifs with h1 h2
  · rfl
  · simp [h]
  · rfl

theorem countFree_update_true (s : PmmState) (page : Nat)
    (hpage : page < s.totalPages) (hb : s.bitmap page = false) :
    ((Finset.range s.totalPages).filter fun p =>
      (if p = page then true else s.bitmap p) = false).card
      = ((Finset.range s.totalPages).filter fun p => s.bitmap p = false).card - 1 := by
  have hmem : page ∈ (Finset.range s.totalPages).filter fun p => s.bitmap p = false := by
    simp [Finset.mem_filter, hb, hpage]
  have hset : ((Finset.range s.totalPages).filter fun p =>
      (if p = page then true else s.bitmap p) = false)
      = ((Finset.range s.totalPages).filter fun p => s.bitmap p = false).erase page := by
    ext q
    simp only [Finset.mem_filter, Finset.mem_erase, Finset.mem_range]
    constructor
    · rintro ⟨hq, hqb⟩
      by_cases hqp : q = page
      · simp [hqp] at hqb
      · simp only [if_neg hqp] at hqb
        exact ⟨hqp, hq, hqb⟩
    · rintro ⟨hqp, hq, hqb⟩
      simp [hqp, hqb, hq]
  rw [hset, Finset.card_erase_of_mem hmem]

theorem countFree_pos (s : PmmState) (page : Nat)
    (hpage : page < s.totalPages) (hb : s.bitmap page = false) :
    1 ≤ countFree s := by
  have hmem : page ∈ (Finset.range s.totalPages).filter fun p => s.bitmap p = false := by
    simp [Finset.mem_filter, hb, hpage]
  have := Finset.card_pos.mpr ⟨page, hmem⟩
  simpa [countFree] using this

theorem countFree_update_false (s : PmmState) (page : Nat)
    (hpage : page < s.totalPages) (hb : s.bitmap page = true) :
    ((Finset.range s.totalPages).filter fun p =>
      (if p = page then false else s.bitmap p) = false).card
      = ((Finset.range s.totalPages).filter fun p => s.bitmap p = false).card + 1 := by
  have hnotmem : page ∉ (Finset.range s.totalPages).filter fun p => s.bitmap p = false := by
    simp [Finset.mem_filter, hb]
  have hset : ((Finset.range s.totalPages).filter fun p =>
      (if p = page then false else s.bitmap p) = false)
      = insert page ((Finset.range s.totalPages).filter fun p => s.bitmap p = false) := by
    ext q
    simp only [Finset.mem_filter, Finset.mem_insert, Finset.mem_range]
    constructor
    · rintro ⟨hq, hqb⟩
      by_cases hqp : q = page
      · exact Or.inl hqp
      · simp only [if_neg hqp] at hqb
        exact Or.inr ⟨hq, hqb⟩
    · rintro (hqp | ⟨hq, hqb⟩)
      · simp [hqp, hpage]
      · by_cases hqp : q = page
        · simp [hqp, hpage]
        · simp [hqp, hq, hqb]
  rw [hset, Finset.card_insert_of_not_mem hnotmem]

theorem wf_markPageUsed (s : PmmState) (page : Nat) (h : PmmWF s) :
    PmmWF (markPageUsed s page) := by
  obtain ⟨h1, h2, h3, h4, h5⟩ := h
  unfold markPageUsed
  split_ifs with hout hclear
  · exact ⟨h1, h2, h3, h4, h5⟩
  · have hpage : page < s.totalPages := by omega
    have hcf1 : 1 ≤ countFree s := countFree_pos s page hpage hclear
    have hcfle : countFree s ≤ s.totalPages := countFree_le s
    simp only [countFree] at h1 h2 hcf1 hcfle
    refine ⟨?_, ?_, ?_, h4, h5⟩
    · dsimp only [countFree]
      rw [countFree_update_true s page hpage hclear, h1,
        sub32_eq _ _ hcf1 (by omega) (by norm_num)]
    · dsimp only [countFree]
      rw [countFree_update_true s page hpage hclear, h2, add32_eq _ _ (by omega)]
      omega
    · intro p hp hle
      dsimp only at hp hle ⊢
      by_cases hqp : p = page
      · simp [hqp]
      · simp only [if_neg hqp]
        exact h3 p hp hle
  · exact ⟨h1, h2, h3, h4, h5⟩

theorem wf_markPageFree (s : PmmState) (page : Nat) (h : PmmWF s) :
    PmmWF (markPageFree s page) := by
  obtain ⟨h1, h2, h3, h4, h5⟩ := h
  unfold markPageFree
  split_ifs with hout hset
  · exact ⟨h1, h2, h3, h4, h5⟩
  · have hpage : page < s.totalPages := by omega
    have hnotmem : page ∉ (Finset.range s.totalPages).filter fun p => s.bitmap p = false := by
      simp [Finset.mem_filter, hset]
    have hcflt : countFree s < s.totalPages := by
      have hss : ((Finset.range s.totalPages).filter fun p => s.bitmap p = false)
          ⊂ Finset.range s.totalPages := by
        refine ⟨Finset.filter_subset _ _, fun hsub => ?_⟩
        exact hnotmem (hsub (Finset.mem_range.mpr hpage))
      have := Finset.card_lt_card hss
      simpa [countFree] using this
    have hcfle : countFree s ≤ s.totalPages := countFree_le s
    simp only [countFree] at h1 h2 hcflt hcfle
    refine ⟨?_, ?_, ?_, h4, h5⟩
    · dsimp only [countFree]
      rw [countFree_update_false s page hpage hset, h1, add32_eq _ _ (by omega)]
    · dsimp only [countFree]
      rw [countFree_update_false s page hpage hset, h2,
        sub32_eq _ _ (by omega) (by omega) (by norm_num)]
      omega
    · intro p hp hle
      dsimp only at hp hle ⊢
      by_cases hqp : p = page
      · omega
      · simp only [if_neg hqp]
        exact h3 p hp hle
  · exact ⟨h1, h2, h3, h4, h5⟩

theorem pmmScanBitsAux_spec (s : PmmState) (i : Nat) :
    ∀ n bit, n + bit = 32 →
    (pmmScanBitsAux s i n bit = none ∧
      ∀ b, bit ≤ b → b < 32 → s.bitmap (32 * i + b) = true)
    ∨ (∃ b, bit ≤ b ∧ b < 32 ∧ s.totalPages ≤ 32 * i + b ∧
        (∀ x, bit ≤ x → x < b → s.bitmap (32 * i + x) = true) ∧
        pmmScanBitsAux s i n bit = some (s, 0))
    ∨ (∃ b, bit ≤ b ∧ b < 32 ∧ 32 * i + b < s.totalPages ∧
        s.bitmap (32 * i + b) = false ∧
        (∀ x, bit ≤ x → x < b → s.bitmap (32 * i + x) = true) ∧
        pmmScanBitsAux s i n bit
          = some (markPageUsed s (32 * i + b), pageToAddress (32 * i + b))) := by
  intro n
  induction n with
  | zero =>
    intro bit hbit
    left
    refine ⟨rfl, fun b hb1 hb2 => ?_⟩
    omega
  | succ m ih =>
    intro bit hbit
    by_cases hout : s.totalPages ≤ 32 * i + bit
    · right; left
      refine ⟨bit, le_refl bit, by omega, hout, fun x hx1 hx2 => by omega, ?_⟩
      simp [pmmScanBitsAux, hout]
    · by_cases hclear : s.bitmap (32 * i + bit) = false
      · right; right
        refine ⟨bit, le_refl bit, by omega, by omega, hclear,
          fun x hx1 hx2 => by omega, ?_⟩
        simp [pmmScanBitsAux, hout, hclear]
      · have hset : s.bitmap (32 * i + bit) = true := by
          revert hclear; cases s.bitmap (32 * i + bit) <;> simp
        have hstep : pmmScanBitsAux s i (m + 1) bit = pmmScanBitsAux s i m (bit + 1) := by
          simp [pmmScanBitsAux, hout, hclear]
        rcases ih (bit + 1) (by omega) with ⟨hres, hall⟩ | ⟨b, hb1, hb2, hb3, hpre, hres⟩
          | ⟨b, hb1, hb2, hb3, hb4, hpre, hres⟩
        · left
          refine ⟨by rw [hstep, hres], fun b hb1 hb2 => ?_⟩
          rcases Nat.eq_or_lt_of_le hb1 with hb | hb
          · rw [← hb]; exact hset
          · exact hall b hb hb2
        · right; left
          refine ⟨b, by omega, hb2, hb3, fun x hx1 hx2 => ?_, by rw [hstep, hres]⟩
          rcases Nat.eq_or_lt_of_le hx1 with hx | hx
          · rw [← hx]; exact hset
          · exact hpre x hx hx2
        · right; right
          refine ⟨b, by omega, hb2, hb3, hb4, fun x hx1 hx2 => ?_, by rw [hstep, hres]⟩
          rcases Nat.eq_or_lt_of_le hx1 with hx | hx
          · rw [← hx]; exact hset
          · exact hpre x hx hx2

theorem pmmScanWordsAux_spec (s : PmmState) (h4 : s.totalPages ≤ 32 * s.bitmapSize) :
    ∀ n i, n + i = s.bitmapSize →
    (∀ q, q < 32 * i → s.bitmap q = true) →
    (pmmScanWordsAux s n i = (s, 0) ∧ ∀ q, q < s.totalPages → s.bitmap q = true)
    ∨ (∃ p, p < s.totalPages ∧ s.bitmap p = false ∧
        (∀ q, q < p → s.bitmap q = true) ∧
        pmmScanWordsAux s n i = (markPageUsed s p, pageToAddress p)) := by
  intro n
  induction n with
  | zero =>
    intro i hi hpre
    left
    exact ⟨rfl, fun q hq => hpre q (by omega)⟩
  | succ m ih =>
    intro i hi hpre
    by_cases hfull : wordFull s i = true
    · have hallset : ∀ x, x < 32 → s.bitmap (32 * i + x) = true := by
        intro x hx
        have := hfull
        unfold wordFull at this
        rw [List.all_eq_true] at this
        exact this x (List.mem_range.mpr hx)
      have hpre1 : ∀ q, q < 32 * (i + 1) → s.bitmap q = true := by
        intro q hq
        by_cases hlo : q < 32 * i
        · exact hpre q hlo
        · have hq2 : q = 32 * i + (q - 32 * i) := by omega
          rw [hq2]; exact hallset _ (by omega)
      have hstep : pmmScanWordsAux s (m + 1) i = pmmScanWordsAux s m (i + 1) := by
        simp [pmmScanWordsAux, hfull]
      rw [hstep]
      exact ih (i + 1) (by omega) hpre1
    · rcases pmmScanBitsAux_spec s i 32 0 (by omega) with ⟨hres, hall⟩
        | ⟨b, _, hb2, hb3, hbits, hres⟩ | ⟨b, _, hb2, hb3, hb4, hbits, hres⟩
      · -- the inner loop found every bit set although the word test failed;
        -- the scan then moves to the next word
        have hallset : ∀ x, x < 32 → s.bitmap (32 * i + x) = true := by
          intro x hx; exact hall x (by omega) hx
        have hpre1 : ∀ q, q < 32 * (i + 1) → s.bitmap q = true := by
          intro q hq
          by_cases hlo : q < 32 * i
          · exact hpre q hlo
          · have hq2 : q = 32 * i + (q - 32 * i) := by omega
            rw [hq2]; exact hallset _ (by omega)
        have hstep : pmmScanWordsAux s (m + 1) i = pmmScanWordsAux s m (i + 1) := by
          simp [pmmScanWordsAux, hfull, hres]
        rw [hstep]
        exact ih (i + 1) (by omega) hpre1
      · left
        have hstep : pmmScanWordsAux s (m + 1) i = (s, 0) := by
          simp [pmmScanWordsAux, hfull, hres]
        refine ⟨hstep, fun q hq => ?_⟩
        by_cases hlo : q < 32 * i
        · exact hpre q hlo
        · have hx : q = 32 * i + (q - 32 * i) := by omega
          rw [hx]
          exact hbits _ (by omega) (by omega)
      · right
        refine ⟨32 * i + b, hb3, hb4, fun q hq => ?_, ?_⟩
        · by_cases hlo : q < 32 * i
          · exact hpre q hlo
          · have hx : q = 32 * i + (q - 32 * i) := by omega
            rw [hx]
            exact hbits _ (by omega) (by omega)
        · simp [pmmScanWordsAux, hfull, hres]

/-- PmmAllocPage either reports exhaustion leaving the state unchanged
when every in-range page is allocated, or marks the lowest free page used
and returns its address: first-fit, low-frame-first. -/
theorem PmmAllocPage_spec (s : PmmState) (h : PmmWF s) :
    (PmmAllocPage s = (s, 0) ∧ ∀ q, q < s.totalPages → s.bitmap q = true)
    ∨ (∃ p, p < s.totalPages ∧ s.bitmap p = false ∧
        (∀ q, q < p → s.bitmap q = true) ∧
        PmmAllocPage s = (markPageUsed s p, pageToAddress p)) := by
  obtain ⟨_, _, _, h4, _⟩ := h
  exact pmmScanWordsAux_spec s h4 s.bitmapSize 0 (by omega)
    (fun q hq => absurd hq (by omega))

theorem land_4095_eq_mod (n : Nat) : n &&& (PAGE_SIZE - 1) = n % 4096 := by
  have h := Nat.and_pow_two_sub_one_eq_mod n 12
  norm_num at h
  exact h

theorem markPageUsed_bitmap_self (s : PmmState) (page : Nat)
    (hpage : page < s.totalPages) (hb : s.bitmap page = false) :
    (markPageUsed s page).bitmap page = true := by
  unfold markPageUsed
  rw [if_neg (by omega), if_pos hb]
  simp

theorem markPageFree_bitmap_self (s : PmmState) (page : Nat)
    (hpage : page < s.totalPages) (hb : s.bitmap page = true) :
    (markPageFree s page).bitmap page = false := by
  unfold markPageFree
  rw [if_neg (by omega), if_pos hb]
  simp

theorem markPageFree_out (s : PmmState) (page : Nat)
    (h : s.totalPages ≤ page) : markPageFree s page = s := by
  simp [markPageFree, h]

theorem markPageFree_clear (s : PmmState) (page : Nat)
    (h : s.bitmap page = false) : markPageFree s page = s := by
  unfold markPageFree
  split_ifs with h1 h2
  · rfl
  · rw [h] at h2; cases h2
  · rfl

theorem markPageFree_idem (s : PmmState) (page : Nat) :
    markPageFree (markPageFree s page) page = markPageFree s page := by
  by_cases h1 : s.totalPages ≤ page
  · rw [markPageFree_out s page h1, markPageFree_out s page h1]
  · by_cases h2 : s.bitmap page = true
    · apply markPageFree_clear
      exact markPageFree_bitmap_self s page (by omega) h2
    · have h2f : s.bitmap page = false := by
        revert h2; cases s.bitmap page <;> simp
      rw [markPageFree_clear s page h2f, markPageFree_clear s page h2f]

theorem PmmFreePage_unaligned (s : PmmState) (addr : Nat)
    (h : addr &&& (PAGE_SIZE - 1) ≠ 0) : PmmFreePage s addr = s := by
  simp [PmmFreePage, h]

theorem PmmFreePage_aligned (s : PmmState) (addr : Nat)
    (h : addr &&& (PAGE_SIZE - 1) = 0) :
    PmmFreePage s addr = markPageFree s (addressToPage addr) := by
  simp [PmmFreePage, h]

theorem wf_PmmFreePage (s : PmmState) (addr : Nat) (h : PmmWF s) :
    PmmWF (PmmFreePage s addr) := by
  unfold PmmFreePage
  split_ifs with h1
  · exact h
  · exact wf_markPageFree s _ h

theorem wf_PmmAllocPage (s : PmmState) (h : PmmWF s) :
    PmmWF (PmmAllocPage s).1 := by
  rcases PmmAllocPage_spec s h with ⟨heq, _⟩ | ⟨p, _, _, _, heq⟩
  · rw [heq]; exact h
  · rw [heq]; exact wf_markPageUsed s p h

/-- An event of the external allocation interface of the PMM. -/
inductive PmmOp where
  | alloc : PmmOp
  | free : Nat → PmmOp

/-- One PMM call, threading the set of outstanding (returned and not yet
freed) addresses next to the state. -/
def pmmStep : PmmState × List Nat → PmmOp → PmmState × List Nat
  | (s, out), PmmOp.alloc =>
    let r := PmmAllocPage s
    (r.1, if r.2 = 0 then out else r.2 :: out)
  | (s, out), PmmOp.free a => (PmmFreePage s a, out.filter fun b => b != a)

/-- Run a sequence of PMM calls. -/
def runOut (st : PmmState × List Nat) : List PmmOp → PmmState × List Nat
  | [] => st
  | op :: rest => runOut (pmmStep st op) rest

/-- The trace invariant: the state is well formed, the outstanding
addresses are pairwise distinct, and each one is page-aligned, in range,
non-zero and still marked allocated in the bitmap. -/
def OutInv (s : PmmState) (out : List Nat) : Prop :=
  PmmWF s ∧ List.Pairwise (fun a b => a ≠ b) out ∧
  ∀ a ∈ out, a % PAGE_SIZE = 0 ∧ a / PAGE_SIZE < s.totalPages ∧
    s.bitmap (a / PAGE_SIZE) = true ∧ a ≠ 0

theorem outInv_alloc (s : PmmState) (out : List Nat) (h : OutInv s out) :
    OutInv (pmmStep (s, out) PmmOp.alloc).1 (pmmStep (s, out) PmmOp.alloc).2 := by
  obtain ⟨hwf, hpw, hmem⟩ := h
  rcases PmmAllocPage_spec s hwf with ⟨heq, _⟩ | ⟨p, hp, hclear, _, heq⟩
  · simp only [pmmStep, heq]
    exact ⟨hwf, by simpa using hpw, by simpa using hmem⟩
  · simp only [pmmStep, heq]
    have hwf1 : PmmWF (markPageUsed s p) := wf_markPageUsed s p hwf
    have htot : (markPageUsed s p).totalPages = s.totalPages :=
      markPageUsed_totalPages s p
    have hmem1 : ∀ a ∈ out, a % PAGE_SIZE = 0 ∧
        a / PAGE_SIZE < (markPageUsed s p).totalPages ∧
        (markPageUsed s p).bitmap (a / PAGE_SIZE) = true ∧ a ≠ 0 := by
      intro a ha
      obtain ⟨ha1, ha2, ha3, ha4⟩ := hmem a ha
      exact ⟨ha1, by omega, markPageUsed_bitmap_mono s p _ ha3, ha4⟩
    by_cases hz : pageToAddress p = 0
    · simp only [hz, if_pos rfl]
      exact ⟨hwf1, hpw, hmem1⟩
    · simp only [if_neg hz]
      have hnotin : pageToAddress p ∉ out := by
        intro hin
        obtain ⟨_, _, ha3, _⟩ := hmem _ hin
        have hdiv : pageToAddress p / PAGE_SIZE = p := by
          simp [pageToAddress, PAGE_SIZE]
        rw [hdiv] at ha3
        rw [ha3] at hclear
        cases hclear
      refine ⟨hwf1, ?_, ?_⟩
      · exact List.pairwise_cons.mpr ⟨fun b hb hab => hnotin (hab ▸ hb), hpw⟩
      · intro a ha
        rcases List.mem_cons.mp ha with ha0 | ha0
        · subst ha0
          have hdiv : pageToAddress p / PAGE_SIZE = p := by
            simp [pageToAddress, PAGE_SIZE]
          refine ⟨by simp [pageToAddress, PAGE_SIZE], ?_, ?_, hz⟩
          · rw [hdiv]; omega
          · rw [hdiv]; exact markPageUsed_bitmap_self s p hp hclear
        · exact hmem1 a ha0

theorem outInv_free (s : PmmState) (out : List Nat) (b : Nat) (h : OutInv s out) :
    OutInv (pmmStep (s, out) (PmmOp.free b)).1 (pmmStep (s, out) (PmmOp.free b)).2 := by
  obtain ⟨hwf, hpw, hmem⟩ := h
  simp only [pmmStep]
  refine ⟨wf_PmmFreePage s b hwf, hpw.sublist (List.filter_sublist out), ?_⟩
  intro a ha
  have hin : a ∈ out ∧ a ≠ b := by
    have := List.mem_filter.mp ha
    simpa using this
  obtain ⟨ha1, ha2, ha3, ha4⟩ := hmem a hin.1
  by_cases halign : b &&& (PAGE_SIZE - 1) = 0
  · rw [PmmFreePage_aligned s b halign]
    have hb0 : b % 4096 = 0 := by rw [← land_4095_eq_mod]; exact halign
    have ha0 : a % 4096 = 0 := ha1
    have hne : a / PAGE_SIZE ≠ addressToPage b := by
      simp only [addressToPage, PAGE_SIZE]
      intro hdiv
      exact hin.2 (by omega)
    refine ⟨ha1, ?_, ?_, ha4⟩
    · rw [markPageFree_totalPages]; exact ha2
    · rw [markPageFree_bitmap_other s _ _ hne]; exact ha3
  · rw [PmmFreePage_unaligned s b halign]
    exact ⟨ha1, ha2, ha3, ha4⟩

theorem outInv_runOut (ops : List PmmOp) :
    ∀ s out, OutInv s out →
    OutInv (runOut (s, out) ops).1 (runOut (s, out) ops).2 := by
  induction ops with
  | nil => intro s out h; exact h
  | cons op rest ih =>
    intro s out h
    have hstep : OutInv (pmmStep (s, out) op).1 (pmmStep (s, out) op).2 := by
      cases op with
      | alloc => exact outInv_alloc s out h
      | free b => exact outInv_free s out b h
    have heta : pmmStep (s, out) op = ((pmmStep (s, out) op).1, (pmmStep (s, out) op).2) := rfl
    show OutInv (runOut (pmmStep (s, out) op) rest).1 (runOut (pmmStep (s, out) op) rest).2
    rw [heta]
    exact ih _ _ hstep

theorem wf_markPagesUsed : ∀ (n : Nat) (s : PmmState) (page : Nat), PmmWF s →
    PmmWF (markPagesUsed s page n) := by
  intro n
  induction n with
  | zero => intro s page h; exact h
  | succ m ih => intro s page h; exact ih _ _ (wf_markPageUsed s page h)

theorem wf_markPagesFree : ∀ (n : Nat) (s : PmmState) (page : Nat), PmmWF s →
    PmmWF (markPagesFree s page n) := by
  intro n
  induction n with
  | zero => intro s page h; exact h
  | succ m ih => intro s page h; exact ih _ _ (wf_markPageFree s page h)

theorem wf_markRegionUsed (s : PmmState) (start length : Nat) (h : PmmWF s) :
    PmmWF (markRegionUsed s start length) :=
  wf_markPagesUsed _ s _ h

theorem wf_markRegionFree (s : PmmState) (start length : Nat) (h : PmmWF s) :
    PmmWF (markRegionFree s start length) :=
  wf_markPagesFree _ s _ h

theorem wf_PmmInitialize (memLower memUpper kernelEnd : Nat)
    (hml : memLower < 4294967296) (hmu : memUpper < 4294967296) :
    PmmWF (PmmInitialize memLower memUpper kernelEnd) := by
  have hbase : PmmWF
      { bitmap := fun _ => true,
        bitmapSize := ((memLower + memUpper) * 1024 / PAGE_SIZE + 31) / 32,
        totalPages := (memLower + memUpper) * 1024 / PAGE_SIZE,
        usedPages := (memLower + memUpper) * 1024 / PAGE_SIZE,
        freePages := 0 } := by
    refine ⟨?_, ?_, fun p hp hle => rfl, ?_, ?_⟩
    · simp [countFree]
    · simp [countFree]
    · simp only [PAGE_SIZE]
      omega
    · simp only [PAGE_SIZE]
      omega
  exact wf_markRegionUsed _ _ _ (wf_markRegionUsed _ _ _ (wf_markRegionFree _ _ _ hbase))

/-- C4: after PmmInitialize, any sequence of PmmAllocPage and PmmFreePage
calls keeps free_bytes + used_bytes = total_bytes, and the outstanding
(allocated, not yet freed) addresses are pairwise distinct, page-aligned,
non-zero and below total_bytes. -/
theorem pmm_sequences_counters_aligned_unique
    (memLower memUpper kernelEnd : Nat)
    (hml : memLower < 4294967296) (hmu : memUpper < 4294967296)
    (ops : List PmmOp) :
    PmmGetFreeMemory (runOut (PmmInitialize memLower memUpper kernelEnd, []) ops).1
      + PmmGetUsedMemory (runOut (PmmInitialize memLower memUpper kernelEnd, []) ops).1
      = PmmGetTotalMemory (runOut (PmmInitialize memLower memUpper kernelEnd, []) ops).1
    ∧ List.Pairwise (fun a b => a ≠ b)
        (runOut (PmmInitialize memLower memUpper kernelEnd, []) ops).2
    ∧ ∀ a ∈ (runOut (PmmInitialize memLower memUpper kernelEnd, []) ops).2,
        a % PAGE_SIZE = 0
        ∧ a < PmmGetTotalMemory (runOut (PmmInitialize memLower memUpper kernelEnd, []) ops).1
        ∧ a ≠ 0 := by
  have h0 : OutInv (PmmInitialize memLower memUpper kernelEnd) [] :=
    ⟨wf_PmmInitialize memLower memUpper kernelEnd hml hmu, List.Pairwise.nil, by simp⟩
  obtain ⟨⟨w1, w2, _, _, w5⟩, hpw, hmem⟩ := outInv_runOut ops _ _ h0
  have hcf := countFree_le (runOut (PmmInitialize memLower memUpper kernelEnd, []) ops).1
  refine ⟨?_, hpw, ?_⟩
  · unfold PmmGetFreeMemory PmmGetUsedMemory PmmGetTotalMemory
    rw [w1, w2]
    simp only [PAGE_SIZE]
    omega
  · intro a ha
    obtain ⟨ha1, ha2, ha3, ha4⟩ := hmem a ha
    refine ⟨ha1, ?_, ha4⟩
    unfold PmmGetTotalMemory
    simp only [PAGE_SIZE] at ha1 ha2 ⊢
    omega

theorem pmm_sequences_counters_aligned_unique_witness :
    PmmGetFreeMemory (runOut (PmmInitialize 0 16 1048576, []) [PmmOp.alloc]).1
      + PmmGetUsedMemory (runOut (PmmInitialize 0 16 1048576, []) [PmmOp.alloc]).1
      = PmmGetTotalMemory (runOut (PmmInitialize 0 16 1048576, []) [PmmOp.alloc]).1 :=
  (pmm_sequences_counters_aligned_unique 0 16 1048576 (by norm_num) (by norm_num)
    [PmmOp.alloc]).1

/-- PmmAllocPage at a well-formed state whose lowest clear in-range bit is
p allocates exactly page p. -/
theorem PmmAllocPage_least (s : PmmState) (h : PmmWF s) (p : Nat)
    (hp : p < s.totalPages) (hclear : s.bitmap p = false)
    (hmin : ∀ q, q < p → s.bitmap q = true) :
    PmmAllocPage s = (markPageUsed s p, pageToAddress p) := by
  rcases PmmAllocPage_spec s h with ⟨_, hall⟩ | ⟨q, hq, hqc, hqmin, heq⟩
  · rw [hall p hp] at hclear; cases hclear
  · have hqp : q = p := by
      rcases Nat.lt_trichotomy q p with h1 | h1 | h1
      · rw [hmin q h1] at hqc; cases hqc
      · exact h1
      · rw [hqmin p h1] at hclear; cases hclear
    rw [hqp] at heq
    exact heq

theorem alloc_after_free_least (s : PmmState) (h : PmmWF s) (p : Nat)
    (hp : p < s.totalPages) (hset : s.bitmap p = true)
    (hmin : ∀ q, q < p → s.bitmap q = true) :
    (PmmAllocPage (PmmFreePage s (pageToAddress p))).2 = pageToAddress p := by
  have halign : pageToAddress p &&& (PAGE_SIZE - 1) = 0 := by
    rw [land_4095_eq_mod]
    simp [pageToAddress, PAGE_SIZE, Nat.mul_mod_left]
  rw [PmmFreePage_aligned s _ halign]
  have haddr : addressToPage (pageToAddress p) = p := by
    simp only [addressToPage, pageToAddress, PAGE_SIZE]
    omega
  rw [haddr]
  have hwfv := wf_markPageFree s p h
  have hpv : p < (markPageFree s p).totalPages := by
    rw [markPageFree_totalPages]; exact hp
  have hclearv : (markPageFree s p).bitmap p = false :=
    markPageFree_bitmap_self s p hp hset
  have hminv : ∀ q, q < p → (markPageFree s p).bitmap q = true := by
    intro q hq
    rw [markPageFree_bitmap_other s p q (by omega)]
    exact hmin q hq
  rw [PmmAllocPage_least (markPageFree s p) hwfv p hpv hclearv hminv]

/-- C7: PmmAllocPage is deterministic first-fit over the lowest free
frame: freeing the page just allocated and allocating again returns the
same address, and after allocating three pages and freeing the middle one,
the next allocation returns exactly that middle address. -/
theorem pmm_first_fit_deterministic (s : PmmState) (h : PmmWF s) :
    (∀ s1 a, PmmAllocPage s = (s1, a) → a ≠ 0 →
      (PmmAllocPage (PmmFreePage s1 a)).2 = a)
    ∧ (∀ s1 a1 s2 a2 s3 a3,
      PmmAllocPage s = (s1, a1) → a1 ≠ 0 →
      PmmAllocPage s1 = (s2, a2) → a2 ≠ 0 →
      PmmAllocPage s2 = (s3, a3) → a3 ≠ 0 →
      (PmmAllocPage (PmmFreePage s3 a2)).2 = a2) := by
  constructor
  · intro s1 a heq ha
    rcases PmmAllocPage_spec s h with ⟨heq0, _⟩ | ⟨p, hp, hclear, hmin, heq0⟩
    · rw [heq0] at heq
      simp only [Prod.mk.injEq] at heq
      exact absurd heq.2.symm ha
    · rw [heq0] at heq
      simp only [Prod.mk.injEq] at heq
      obtain ⟨hs1, ha1⟩ := heq
      subst hs1
      subst ha1
      apply alloc_after_free_least _ (wf_markPageUsed s p h) p
      · rw [markPageUsed_totalPages]; exact hp
      · exact markPageUsed_bitmap_self s p hp hclear
      · intro q hq
        rw [markPageUsed_bitmap_other s p q (by omega)]
        exact hmin q hq
  · intro s1 a1 s2 a2 s3 a3 he1 ha1 he2 ha2 he3 ha3
    rcases PmmAllocPage_spec s h with ⟨heq0, _⟩ | ⟨p1, hp1, hc1, hm1, heq0⟩
    · rw [heq0] at he1
      simp only [Prod.mk.injEq] at he1
      exact absurd he1.2.symm ha1
    · rw [heq0] at he1
      simp only [Prod.mk.injEq] at he1
      obtain ⟨hs1, hae1⟩ := he1
      subst hs1
      subst hae1
      have hwf1 := wf_markPageUsed s p1 h
      rcases PmmAllocPage_spec _ hwf1 with ⟨heq1, _⟩ | ⟨p2, hp2, hc2, hm2, heq1⟩
      · rw [heq1] at he2
        simp only [Prod.mk.injEq] at he2
        exact absurd he2.2.symm ha2
      · rw [heq1] at he2
        simp only [Prod.mk.injEq] at he2
        obtain ⟨hs2, hae2⟩ := he2
        subst hs2
        subst hae2
        have hwf2 := wf_markPageUsed _ p2 hwf1
        rcases PmmAllocPage_spec _ hwf2 with ⟨heq2, _⟩ | ⟨p3, hp3, hc3, hm3, heq2⟩
        · rw [heq2] at he3
          simp only [Prod.mk.injEq] at he3
          exact absurd he3.2.symm ha3
        · rw [heq2] at he3
          simp only [Prod.mk.injEq] at he3
          obtain ⟨hs3, hae3⟩ := he3
          subst hs3
          apply alloc_after_free_least _ (wf_markPageUsed _ p3 hwf2) p2
          · rw [markPageUsed_totalPages, markPageUsed_totalPages]
            exact hp2
          · apply markPageUsed_bitmap_mono
            exact markPageUsed_bitmap_self _ p2 hp2 hc2
          · intro q hq
            apply markPageUsed_bitmap_mono
            apply markPageUsed_bitmap_mono
            exact hm2 q hq

/-- A small well-formed PMM state used to exercise the PMM theorems on
concrete data: 8 pages, pages 0-4 allocated, pages 5-7 free, one bitmap
word whose padding bits are set. -/
def pmmDemoState : PmmState :=
  { bitmap := fun p => decide (p < 5 ∨ 8 ≤ p), bitmapSize := 1,
    totalPages := 8, freePages := 3, usedPages := 5 }

theorem pmm_first_fit_deterministic_witness :
    (PmmAllocPage (PmmFreePage (PmmAllocPage pmmDemoState).1
        (PmmAllocPage pmmDemoState).2)).2
      = (PmmAllocPage pmmDemoState).2
    ∧ (PmmAllocPage pmmDemoState).2 = 20480 :=
  ⟨(pmm_first_fit_deterministic pmmDemoState (by unfold PmmWF; decide)).1
      (PmmAllocPage pmmDemoState).1 (PmmAllocPage pmmDemoState).2 rfl (by decide),
    by decide⟩

/-- C8: PmmFreePage ignores addresses that are not 4096-byte aligned,
leaves the state unchanged when the frame is already free, and is
idempotent. -/
theorem pmm_free_unaligned_ignored_and_idempotent (s : PmmState) (addr : Nat) :
    (addr &&& (PAGE_SIZE - 1) ≠ 0 → PmmFreePage s addr = s)
    ∧ (s.bitmap (addressToPage addr) = false → PmmFreePage s addr = s)
    ∧ PmmFreePage (PmmFreePage s addr) addr = PmmFreePage s addr := by
  refine ⟨PmmFreePage_unaligned s addr, ?_, ?_⟩
  · intro hb
    by_cases hal : addr &&& (PAGE_SIZE - 1) = 0
    · rw [PmmFreePage_aligned s addr hal]
      exact markPageFree_clear s _ hb
    · exact PmmFreePage_unaligned s addr hal
  · by_cases hal : addr &&& (PAGE_SIZE - 1) = 0
    · rw [PmmFreePage_aligned s addr hal, PmmFreePage_aligned _ addr hal]
      exact markPageFree_idem s (addressToPage addr)
    · rw [PmmFreePage_unaligned s addr hal, PmmFreePage_unaligned s addr hal]

theorem pmm_free_unaligned_ignored_and_idempotent_witness :
    PmmFreePage pmmDemoState 5 = pmmDemoState
    ∧ PmmFreePage (PmmFreePage pmmDemoState 16384) 16384
      = PmmFreePage pmmDemoState 16384 :=
  ⟨(pmm_free_unaligned_ignored_and_idempotent pmmDemoState 5).1 (by decide),
    (pmm_free_unaligned_ignored_and_idempotent pmmDemoState 16384).2.2⟩

end Pmm

namespace Paging

/-- PAGE_PRESENT flag from paging.h. -/
def PAGE_PRESENT : Nat := 0x001

/-- PAGE_WRITE flag from paging.h. -/
def PAGE_WRITE : Nat := 0x002

/-- PAGE_DIRECTORY_INDEX from paging.c. -/
def PAGE_DIRECTORY_INDEX (addr : Nat) : Nat := (addr >>> 22) &&& 0x3FF

/-- PAGE_TABLE_INDEX from paging.c. -/
def PAGE_TABLE_INDEX (addr : Nat) : Nat := (addr >>> 12) &&& 0x3FF

/-- PAGE_ALIGN from paging.c: addr & ~0xFFF in 32-bit arithmetic. -/
def PAGE_ALIGN (addr : Nat) : Nat := addr &&& 4294963200

/-- PAGE_GET_PHYSICAL from paging.c. -/
def PAGE_GET_PHYSICAL (entry : Nat) : Nat := entry &&& 4294963200

/-- The kernel page directory: a present PDE at index j is modelled as
some table, the table being its array of 1024 PTEs (a function from the
page-table index to the 32-bit entry).  A PDE without PAGE_PRESENT is
none. -/
structure PagingState where
  dir : Nat → Option (Nat → Nat)

/-- pagingGetPageTable from paging.c.  If the PDE is present the table is
returned; otherwise, when create is requested, a fresh zeroed table is
allocated and installed (with PRESENT|WRITE, carried implicitly by the
some).  PmmAllocPage is modelled as succeeding; physical exhaustion is the
only failure mode of the C function and is out of scope of the translate
and unmap paths, which never create. -/
def pagingGetPageTable (s : PagingState) (virtualAddr : Nat) (create : Bool) :
    PagingState × Option (Nat → Nat) :=
  let pdIndex := PAGE_DIRECTORY_INDEX virtualAddr
  match s.dir pdIndex with
  | some table => (s, some table)
  | none =>
    if create = false then (s, none)
    else
      let table : Nat → Nat := fun _ => 0
      ({ dir := fun j => if j = pdIndex then some table else s.dir j }, some table)

/-- PagingMapPage from paging.c. -/
def PagingMapPage (s : PagingState) (virtualAddr physicalAddr flags : Nat) :
    PagingState × Bool :=
  match pagingGetPageTable s virtualAddr true with
  | (_, none) => (s, false)
  | (s1, some table) =>
    let ptIndex := PAGE_TABLE_INDEX virtualAddr
    let table1 : Nat → Nat :=
      fun j => if j = ptIndex then PAGE_ALIGN physicalAddr ||| flags else table j
    ({ dir := fun j => if j = PAGE_DIRECTORY_INDEX virtualAddr then some table1
        else s1.dir j }, true)

/-- PagingUnmapPage from paging.c. -/
def PagingUnmapPage (s : PagingState) (virtualAddr : Nat) : PagingState :=
  match pagingGetPageTable s virtualAddr false with
  | (_, none) => s
  | (_, some table) =>
    let ptIndex := PAGE_TABLE_INDEX virtualAddr
    let table1 : Nat → Nat := fun j => if j = ptIndex then 0 else table j
    { dir := fun j => if j = PAGE_DIRECTORY_INDEX virtualAddr then some table1
        else s.dir j }

/-- PagingGetPhysicalAddress from paging.c. -/
def PagingGetPhysicalAddress (s : PagingState) (virtualAddr : Nat) : Nat :=
  match pagingGetPageTable s virtualAddr false with
  | (_, none) => 0
  | (_, some table) =>
    let pte := table (PAGE_TABLE_INDEX virtualAddr)
    if pte &&& PAGE_PRESENT = 0 then 0
    else PAGE_GET_PHYSICAL pte ||| (virtualAddr &&& 0xFFF)

theorem testBit_4095 (i : Nat) : (4095 : Nat).testBit i = decide (i < 12) := by
  rw [show (4095 : Nat) = 2 ^ 12 - 1 by norm_num]
  exact Nat.testBit_two_pow_sub_one 12 i

theorem testBit_3 (i : Nat) : (3 : Nat).testBit i = decide (i < 2) := by
  rw [show (3 : Nat) = 2 ^ 2 - 1 by norm_num]
  exact Nat.testBit_two_pow_sub_one 2 i

theorem testBit_4294963200 (i : Nat) :
    (4294963200 : Nat).testBit i = (decide (12 ≤ i) && decide (i < 32)) := by
  rw [show (4294963200 : Nat) = (2 ^ 20 - 1) <<< 12 by norm_num [Nat.shiftLeft_eq]]
  rw [Nat.testBit_shiftLeft, Nat.testBit_two_pow_sub_one]
  by_cases h : 12 ≤ i
  · simp only [decide_eq_true (show (12 : Nat) ≤ i from h), Bool.true_and]
    exact decide_eq_decide.mpr (by omega)
  · simp [h]

theorem testBit_aligned_low (pa i : Nat) (h : pa % 4096 = 0) (hi : i < 12) :
    pa.testBit i = false := by
  have hpa : pa = (pa / 4096) <<< 12 := by
    rw [Nat.shiftLeft_eq]
    norm_num
    omega
  rw [hpa, Nat.testBit_shiftLeft]
  simp [Nat.not_le.mpr hi]

theorem testBit_ge32 (x i : Nat) (h : x < 4294967296) (hi : 32 ≤ i) :
    x.testBit i = false := by
  apply Nat.testBit_eq_false_of_lt
  calc x < 4294967296 := h
    _ = 2 ^ 32 := by norm_num
    _ ≤ 2 ^ i := Nat.pow_le_pow_right (by norm_num) hi

theorem aligned_land_mask (pa : Nat) (h : pa % 4096 = 0) (h32 : pa < 4294967296) :
    pa &&& 4294963200 = pa := by
  apply Nat.eq_of_testBit_eq
  intro i
  rw [Nat.testBit_land, testBit_4294963200]
  by_cases h1 : i < 12
  · rw [testBit_aligned_low pa i h h1]
    simp
  · by_cases h2 : i < 32
    · simp [show 12 ≤ i by omega, h2]
    · rw [testBit_ge32 pa i h32 (by omega)]
      simp

theorem pte_roundtrip (pa va : Nat) (hpa : pa % 4096 = 0) (hpa32 : pa < 4294967296) :
    ((pa ||| 3) &&& 4294963200) ||| (va &&& 4095) = pa ||| (va &&& 4095) := by
  apply Nat.eq_of_testBit_eq
  intro i
  simp only [Nat.testBit_lor, Nat.testBit_land, testBit_4095, testBit_3, testBit_4294963200]
  by_cases h1 : i < 12
  · rw [testBit_aligned_low pa i hpa h1]
    simp [h1, Nat.not_le.mpr h1]
  · by_cases h2 : i < 32
    · simp [show 12 ≤ i by omega, h2, show ¬(i < 2) by omega, h1]
    · rw [testBit_ge32 pa i hpa32 (by omega)]
      simp [h1, show ¬(i < 2) by omega, show ¬(i < 32) by omega]

theorem pte_present (pa : Nat) : (pa ||| 3) &&& 1 ≠ 0 := by
  intro hcontra
  have hbit : ((pa ||| 3) &&& 1).testBit 0 = false := by
    rw [hcontra]
    rfl
  rw [Nat.testBit_land, Nat.testBit_lor, testBit_3] at hbit
  simp at hbit

theorem PagingMapPage_dir_self (s : PagingState) (va pa flags : Nat) :
    ∃ t : Nat → Nat,
      (PagingMapPage s va pa flags).1.dir (PAGE_DIRECTORY_INDEX va)
        = some (fun j => if j = PAGE_TABLE_INDEX va
            then PAGE_ALIGN pa ||| flags else t j) := by
  unfold PagingMapPage pagingGetPageTable
  cases hdir : s.dir (PAGE_DIRECTORY_INDEX va) with
  | some t => exact ⟨t, by simp [hdir]⟩
  | none => exact ⟨fun _ => 0, by simp [hdir]⟩

theorem PagingGetPhysicalAddress_of_table (s : PagingState) (va : Nat)
    (t : Nat → Nat) (h : s.dir (PAGE_DIRECTORY_INDEX va) = some t) :
    PagingGetPhysicalAddress s va
      = if t (PAGE_TABLE_INDEX va) &&& PAGE_PRESENT = 0 then 0
        else PAGE_GET_PHYSICAL (t (PAGE_TABLE_INDEX va)) ||| (va &&& 0xFFF) := by
  unfold PagingGetPhysicalAddress pagingGetPageTable
  simp [h]

theorem PagingGetPhysicalAddress_none (s : PagingState) (va : Nat)
    (h : s.dir (PAGE_DIRECTORY_INDEX va) = none) :
    PagingGetPhysicalAddress s va = 0 := by
  unfold PagingGetPhysicalAddress pagingGetPageTable
  simp [h]

theorem PagingUnmapPage_none (s : PagingState) (va : Nat)
    (h : s.dir (PAGE_DIRECTORY_INDEX va) = none) : PagingUnmapPage s va = s := by
  unfold PagingUnmapPage pagingGetPageTable
  simp [h]

theorem PagingUnmapPage_some (s : PagingState) (va : Nat) (t : Nat → Nat)
    (h : s.dir (PAGE_DIRECTORY_INDEX va) = some t) :
    PagingUnmapPage s va
      = { dir := fun j => if j = PAGE_DIRECTORY_INDEX va
          then some (fun j2 => if j2 = PAGE_TABLE_INDEX va then 0 else t j2)
          else s.dir j } := by
  unfold PagingUnmapPage pagingGetPageTable
  simp [h]

/-- C3: after PagingMapPage(va, pa, PRESENT|WRITE) with page-aligned pa,
every virtual address in the same page as va translates to pa plus its
page offset, and after PagingUnmapPage(va) the translation of va is 0. -/
theorem paging_map_translate_unmap (s : PagingState) (va pa va' : Nat)
    (hva : va % 4096 = 0) (hpa : pa % 4096 = 0) (hpa32 : pa < 4294967296)
    (hsame : va' / 4096 = va / 4096) :
    PagingGetPhysicalAddress (PagingMapPage s va pa (PAGE_PRESENT ||| PAGE_WRITE)).1 va'
      = (pa ||| (va' &&& 0xFFF))
    ∧ PagingGetPhysicalAddress (PagingUnmapPage s va) va = 0 := by
  have hpow : (2 : Nat) ^ 12 = 4096 := by norm_num
  have h12 : va' >>> 12 = va >>> 12 := by
    rw [Nat.shiftRight_eq_div_pow, Nat.shiftRight_eq_div_pow, hpow]
    exact hsame
  have hpti : PAGE_TABLE_INDEX va' = PAGE_TABLE_INDEX va := by
    unfold PAGE_TABLE_INDEX
    rw [h12]
  have hpdi : PAGE_DIRECTORY_INDEX va' = PAGE_DIRECTORY_INDEX va := by
    unfold PAGE_DIRECTORY_INDEX
    have e : ∀ x : Nat, x / 2 ^ 22 = x / 4096 / 1024 := by
      intro x
      rw [Nat.div_div_eq_div_mul]
      norm_num
    have h22 : va' >>> 22 = va >>> 22 := by
      rw [Nat.shiftRight_eq_div_pow, Nat.shiftRight_eq_div_pow, e, e, hsame]
    rw [h22]
  have hflags : (PAGE_PRESENT ||| PAGE_WRITE : Nat) = 3 := by decide
  constructor
  · obtain ⟨t, hdir⟩ := PagingMapPage_dir_self s va pa (PAGE_PRESENT ||| PAGE_WRITE)
    rw [← hpdi] at hdir
    rw [PagingGetPhysicalAddress_of_table _ va' _ hdir, hpti]
    rw [if_pos rfl, hflags]
    simp only [PAGE_ALIGN, PAGE_GET_PHYSICAL, PAGE_PRESENT]
    rw [aligned_land_mask pa hpa hpa32, if_neg (pte_present pa)]
    exact pte_roundtrip pa va' hpa hpa32
  · cases hdir : s.dir (PAGE_DIRECTORY_INDEX va) with
    | none =>
      rw [PagingUnmapPage_none s va hdir]
      exact PagingGetPhysicalAddress_none s va hdir
    | some t =>
      rw [PagingUnmapPage_some s va t hdir]
      rw [PagingGetPhysicalAddress_of_table _ va
        (fun j2 => if j2 = PAGE_TABLE_INDEX va then 0 else t j2) (by simp)]
      simp [PAGE_PRESENT]

/-- An empty page directory, as right after allocating and clearing it. -/
def pagingDemoState : PagingState := { dir := fun _ => none }

theorem paging_map_translate_unmap_witness :
    PagingGetPhysicalAddress
        (PagingMapPage pagingDemoState 4194304 36864 (PAGE_PRESENT ||| PAGE_WRITE)).1 4198399
      = (36864 ||| (4198399 &&& 0xFFF))
    ∧ PagingGetPhysicalAddress (PagingUnmapPage pagingDemoState 4194304) 4194304 = 0 :=
  paging_map_translate_unmap pagingDemoState 4194304 36864 4198399
    (by norm_num) (by norm_num) (by norm_num) (by norm_num)

end Paging

namespace KHeap

/-- HEAP_START from kheap.c: 5 MiB. -/
def HEAP_START : Nat := 0x00500000

/-- HEAP_INITIAL from kheap.c: 1 MiB. -/
def HEAP_INITIAL : Nat := 0x00100000

/-- HEAP_MAX from kheap.c: 0x10000000 = 256 MiB. -/
def HEAP_MAX : Nat := 0x10000000

/-- BLOCK_ALIGN from kheap.c. -/
def BLOCK_ALIGN : Nat := 16

/-- sizeof(BlockHeader) on the i386 target: size_t size (4) + bool free
(1, padded to 4) + BlockHeader* next (4). -/
def HEADER_SIZE : Nat := 12

/-- ALIGN_UP from kheap.c: ((n)+(align)-1) & ~((align)-1), computed in
32-bit size_t arithmetic; for a power of two align, ~(align-1) as uint32
is 4294967296 - align. -/
def ALIGN_UP (n align : Nat) : Nat :=
  ((n + (align - 1)) % 4294967296) &&& (4294967296 - align)

/-- One heap block: the header address, the stored size (payload bytes
after the header) and the free flag.  The next pointers of the C header
list are represented by the order of the block list, which is always in
ascending address order (expansion appends at heap_end, a split inserts
the tail right behind its head). -/
structure Block where
  addr : Nat
  size : Nat
  free : Bool
deriving DecidableEq, Repr

/-- The static state of kheap.c.  nsplits is a ghost instrumentation
counter with no C counterpart: it counts block splits performed by
KAllocateMemory and is read by no operation; it only lets invariants
speak about the number of splits so far. -/
structure HeapState where
  blocks : List Block
  heapEnd : Nat
  totalSize : Nat
  usedSize : Nat
  freeSize : Nat
  nsplits : Nat
deriving DecidableEq, Repr

/-- The heap before KHeapInitialize: empty block list, heap_end at
HEAP_START, zero counters. -/
def heapState0 : HeapState :=
  { blocks := [], heapEnd := HEAP_START, totalSize := 0, usedSize := 0,
    freeSize := 0, nsplits := 0 }

/-- heapExpand from kheap.c.  The per-page PmmAllocPage / PagingMapPage
loop only touches physical frames and page tables, so it is modelled as
succeeding (physical memory available); its failure path changes none of
the heap state modelled here.  Returns the new state and the bool result
of the C function. -/
def heapExpand (s : HeapState) (increment0 : Nat) : HeapState × Bool :=
  let increment := ALIGN_UP increment0 PAGE_SIZE
  if HEAP_MAX < add32 s.heapEnd increment then (s, false)
  else
    let newBlock : Block :=
      { addr := s.heapEnd, size := sub32 increment HEADER_SIZE, free := true }
    ({ s with blocks := s.blocks ++ [newBlock],
              heapEnd := add32 s.heapEnd increment,
              totalSize := add32 s.totalSize (sub32 increment HEADER_SIZE),
              freeSize := add32 s.freeSize (sub32 increment HEADER_SIZE) },
      true)

/-- KHeapInitialize from kheap.c: expand by HEAP_INITIAL. -/
def KHeapInitialize : HeapState := (heapExpand heapState0 HEAP_INITIAL).1

/-- The loop of heapMergeBlocks, with the number of remaining loop steps
made explicit so that the recursion is structural: every step consumes
one list cell, so a fuel equal to the list length is never exhausted. -/
def heapMergeAux : Nat → List Block → List Block
  | 0, l => l
  | _ + 1, [] => []
  | _ + 1, [b] => [b]
  | fuel + 1, a :: b :: rest =>
    if a.free = true ∧ b.free = true ∧ add32 (add32 a.addr HEADER_SIZE) a.size = b.addr
    then heapMergeAux fuel ({ a with size := add32 a.size (add32 HEADER_SIZE b.size) } :: rest)
    else a :: heapMergeAux fuel (b :: rest)

/-- heapMergeBlocks from kheap.c: one pass over the list, merging a free
block with its free successor when the blocks are contiguous in memory,
re-examining the merged block. -/
def heapMergeBlocks (l : List Block) : List Block := heapMergeAux l.length l

/-- The first-fit loop of KAllocateMemory.  Returns the rewritten block
list, the payload pointer, the size charged to usedSize (the chosen
block's final size field) and whether the block was split. -/
def allocFirstFit (sz : Nat) : List Block → Option (List Block × Nat × Nat × Bool)
  | [] => none
  | b :: rest =>
    if b.free = true ∧ sz ≤ b.size then
      if add32 sz (HEADER_SIZE + BLOCK_ALIGN) ≤ b.size then
        let newBlock : Block :=
          { addr := add32 (add32 b.addr HEADER_SIZE) sz,
            size := sub32 (sub32 b.size sz) HEADER_SIZE, free := true }
        some (({ b with size := sz, free := false }) :: newBlock :: rest,
          add32 b.addr HEADER_SIZE, sz, true)
      else
        some (({ b with free := false }) :: rest, add32 b.addr HEADER_SIZE, b.size, false)
    else
      match allocFirstFit sz rest with
      | none => none
      | some (l, p, c, d) => some (b :: l, p, c, d)

/-- KAllocateMemory from kheap.c, with the tail recursion after a
successful expansion bounded by fuel.  Fuel 2 realizes the C behavior: a
successful expansion adds a free block of at least the requested size, so
the single retry of the C code always succeeds. -/
def kallocAux : Nat → HeapState → Nat → HeapState × Option Nat
  | 0, s, _ => (s, none)
  | fuel + 1, s, size =>
    if size = 0 then (s, none)
    else
      let sz := ALIGN_UP size BLOCK_ALIGN
      match allocFirstFit sz s.blocks with
      | some (bl, p, charged, didSplit) =>
        if didSplit then
          ({ s with blocks := bl,
                    freeSize := sub32 s.freeSize (add32 sz HEADER_SIZE),
                    usedSize := add32 s.usedSize sz,
                    nsplits := s.nsplits + 1 }, some p)
        else
          ({ s with blocks := bl,
                    freeSize := sub32 s.freeSize charged,
                    usedSize := add32 s.usedSize charged }, some p)
      | none =>
        let expandSize0 := ALIGN_UP (add32 sz HEADER_SIZE) PAGE_SIZE
        let expandSize := if expandSize0 < PAGE_SIZE * 4 then PAGE_SIZE * 4 else expandSize0
        match heapExpand s expandSize with
        | (s1, false) => (s1, none)
        | (s1, true) => kallocAux fuel s1 size

/-- KAllocateMemory from kheap.c. -/
def KAllocateMemory (s : HeapState) (size : Nat) : HeapState × Option Nat :=
  kallocAux 2 s size

/-- Mark the block whose header sits at addr free, returning its stored
size; the C code reaches the header directly through the pointer, the
model finds it in the block list (its representation of heap memory). -/
def setFreeAt (addr : Nat) : List Block → List Block × Option Nat
  | [] => ([], none)
  | b :: rest =>
    if b.addr = addr then ({ b with free := true } :: rest, some b.size)
    else
      let r := setFreeAt addr rest
      (b :: r.1, r.2)

/-- KFreeMemory from kheap.c.  A pointer that addresses no modelled block
header would be undefined behavior in C; the model leaves the state
unchanged. -/
def KFreeMemory (s : HeapState) (p : Nat) : HeapState :=
  if p = 0 then s
  else
    match setFreeAt (sub32 p HEADER_SIZE) s.blocks with
    | (_, none) => s
    | (bl, some bsize) =>
      { s with blocks := heapMergeBlocks bl,
               usedSize := sub32 s.usedSize bsize,
               freeSize := add32 s.freeSize bsize }

/-- Look up the block whose header sits at addr. -/
def findBlockAt (addr : Nat) (blocks : List Block) : Option Block :=
  blocks.find? fun b => b.addr == addr

/-- KReallocateMemory from kheap.c.  The byte copy between the old and
the new payload has no effect on the modelled state. -/
def KReallocateMemory (s : HeapState) (p size : Nat) : HeapState × Option Nat :=
  if p = 0 then KAllocateMemory s size
  else if size = 0 then (KFreeMemory s p, none)
  else
    match findBlockAt (sub32 p HEADER_SIZE) s.blocks with
    | none => (s, none)
    | some b =>
      if size ≤ b.size then (s, some p)
      else
        match KAllocateMemory s size with
        | (s1, none) => (s1, none)
        | (s1, some np) => (KFreeMemory s1 p, some np)

/-- A call of the external heap interface. -/
inductive HeapOp where
  | alloc : Nat → HeapOp
  | free : Nat → HeapOp
  | realloc : Nat → Nat → HeapOp

/-- Apply one heap call. -/
def heapStep (s : HeapState) : HeapOp → HeapState
  | HeapOp.alloc n => (KAllocateMemory s n).1
  | HeapOp.free p => KFreeMemory s p
  | HeapOp.realloc p n => (KReallocateMemory s p n).1

/-- Run a sequence of heap calls. -/
def runHeap (s : HeapState) : List HeapOp → HeapState
  | [] => s
  | op :: rest => runHeap (heapStep s op) rest

/-- The heap counter invariant: usedSize + freeSize accounts for
totalSize up to one header (12 bytes) per split performed, all modulo the
32-bit size_t arithmetic of the counters. -/
def HeapPhi (s : HeapState) : Prop :=
  (s.usedSize + s.freeSize + HEADER_SIZE * s.nsplits) % 4294967296
    = s.totalSize % 4294967296

theorem phi_heapExpand (s : HeapState) (inc : Nat) (h : HeapPhi s) :
    HeapPhi (heapExpand s inc).1 := by
  unfold heapExpand
  dsimp only
  split_ifs with hguard
  · exact h
  · unfold HeapPhi HEADER_SIZE at h ⊢
    unfold add32 sub32
    dsimp only
    omega

theorem phi_kallocAux (fuel : Nat) : ∀ (s : HeapState) (size : Nat), HeapPhi s →
    HeapPhi (kallocAux fuel s size).1 := by
  induction fuel with
  | zero => intro s size h; exact h
  | succ m ih =>
    intro s size h
    by_cases hsz : size = 0
    · simp only [kallocAux, if_pos hsz]
      exact h
    · rcases hfit : allocFirstFit (ALIGN_UP size BLOCK_ALIGN) s.blocks with _ | ⟨bl, p, c, d⟩
      · rcases hexp : heapExpand s
            (if ALIGN_UP (add32 (ALIGN_UP size BLOCK_ALIGN) HEADER_SIZE) PAGE_SIZE
                < PAGE_SIZE * 4
              then PAGE_SIZE * 4
              else ALIGN_UP (add32 (ALIGN_UP size BLOCK_ALIGN) HEADER_SIZE) PAGE_SIZE)
          with ⟨s1, b⟩
        have hphi1 : HeapPhi s1 := by
          have := phi_heapExpand s
            (if ALIGN_UP (add32 (ALIGN_UP size BLOCK_ALIGN) HEADER_SIZE) PAGE_SIZE
                < PAGE_SIZE * 4
              then PAGE_SIZE * 4
              else ALIGN_UP (add32 (ALIGN_UP size BLOCK_ALIGN) HEADER_SIZE) PAGE_SIZE) h
          rw [hexp] at this
          exact this
        cases b with
        | false =>
          simp only [kallocAux, if_neg hsz, hfit, hexp]
          exact hphi1
        | true =>
          simp only [kallocAux, if_neg hsz, hfit, hexp]
          exact ih s1 size hphi1
      · cases d with
        | false =>
          simp [kallocAux, hfit, hsz]
          unfold HeapPhi HEADER_SIZE at h
          unfold HeapPhi
          dsimp only
          unfold HEADER_SIZE add32 sub32
          omega
        | true =>
          simp [kallocAux, hfit, hsz]
          unfold HeapPhi HEADER_SIZE at h
          unfold HeapPhi
          dsimp only
          unfold HEADER_SIZE add32 sub32
          omega

theorem phi_KAllocateMemory (s : HeapState) (size : Nat) (h : HeapPhi s) :
    HeapPhi (KAllocateMemory s size).1 :=
  phi_kallocAux 2 s size h

theorem phi_KFreeMemory (s : HeapState) (p : Nat) (h : HeapPhi s) :
    HeapPhi (KFreeMemory s p) := by
  unfold KFreeMemory
  split_ifs with hp
  · exact h
  · rcases hset : setFreeAt (sub32 p HEADER_SIZE) s.blocks with ⟨bl, osz⟩
    cases osz with
    | none => exact h
    | some bsize =>
      unfold HeapPhi HEADER_SIZE at h ⊢
      unfold add32 sub32
      dsimp only
      omega

theorem phi_KReallocateMemory (s : HeapState) (p size : Nat) (h : HeapPhi s) :
    HeapPhi (KReallocateMemory s p size).1 := by
  unfold KReallocateMemory
  split_ifs with hp hsz
  · exact phi_KAllocateMemory s size h
  · exact phi_KFreeMemory s p h
  · rcases hfind : findBlockAt (sub32 p HEADER_SIZE) s.blocks with _ | b
    · exact h
    · dsimp only
      split_ifs with hle
      · exact h
      · rcases halloc : KAllocateMemory s size with ⟨s1, o⟩
        have hphi1 : HeapPhi s1 := by
          have := phi_KAllocateMemory s size h
          rw [halloc] at this
          exact this
        cases o with
        | none => exact hphi1
        | some np => exact phi_KFreeMemory s1 p hphi1

theorem phi_heapStep (s : HeapState) (op : HeapOp) (h : HeapPhi s) :
    HeapPhi (heapStep s op) := by
  cases op with
  | alloc n => exact phi_KAllocateMemory s n h
  | free p => exact phi_KFreeMemory s p h
  | realloc p n => exact phi_KReallocateMemory s p n h

theorem phi_runHeap (ops : List HeapOp) : ∀ s, HeapPhi s →
    HeapPhi (runHeap s ops) := by
  induction ops with
  | nil => intro s h; exact h
  | cons op rest ih => intro s h; exact ih _ (phi_heapStep s op h)

/-- C2 counterexample: the very first allocation from the freshly
initialized heap splits the initial free block, after which usedSize +
freeSize = totalSize - 12 and the claimed equality fails. -/
theorem kheap_counter_equality_fails_after_split :
    (KAllocateMemory KHeapInitialize 16).1.usedSize
      + (KAllocateMemory KHeapInitialize 16).1.freeSize
      ≠ (KAllocateMemory KHeapInitialize 16).1.totalSize := by
  decide

/-- C2 (amended): over every sequence of KAllocateMemory / KFreeMemory /
KReallocateMemory calls applied to the initialized heap, usedSize +
freeSize + sizeof(BlockHeader) * (number of block splits performed so
far) is congruent to totalSize modulo 2^32; the plain equality usedSize +
freeSize = totalSize therefore holds only while no allocation has split a
block. -/
theorem kheap_counter_invariant_mod (ops : List HeapOp) :
    ((runHeap KHeapInitialize ops).usedSize
      + (runHeap KHeapInitialize ops).freeSize
      + HEADER_SIZE * (runHeap KHeapInitialize ops).nsplits) % 4294967296
    = (runHeap KHeapInitialize ops).totalSize % 4294967296 := by
  have h0 : HeapPhi KHeapInitialize := by
    unfold HeapPhi
    decide
  exact phi_runHeap ops KHeapInitialize h0

/-- C5 counterexample: from the initialized heap (heapEnd = 6 MiB), an
expansion by 0x0FB00000 bytes is refused by heapExpand although heapEnd +
increment = 0x10100000 lies below the 261 MiB limit the claim states. -/
theorem heapExpand_refused_below_261MiB :
    (heapExpand KHeapInitialize 0x0FB00000).2 = false
    ∧ KHeapInitialize.heapEnd + ALIGN_UP 0x0FB00000 PAGE_SIZE ≤ 261 * 1048576 := by
  constructor
  · decide
  · decide

/-- C5 (amended): the heap lives in [HEAP_START = 5 MiB, HEAP_MAX =
0x10000000 = 256 MiB); heapExpand rounds the increment up to a 4 KiB
multiple and refuses, returning false with the state unchanged, exactly
when heapEnd + increment > HEAP_MAX (the sum taken in 32-bit uintptr_t
arithmetic; the last conjunct restates the guard with the plain sum when
it does not overflow). -/
theorem heapExpand_guard (s : HeapState) (inc : Nat) :
    HEAP_START = 5 * 1048576
    ∧ HEAP_MAX = 256 * 1048576
    ∧ ((heapExpand s inc).2 = false ↔ HEAP_MAX < add32 s.heapEnd (ALIGN_UP inc PAGE_SIZE))
    ∧ ((heapExpand s inc).2 = false → (heapExpand s inc).1 = s)
    ∧ (s.heapEnd + ALIGN_UP inc PAGE_SIZE < 4294967296 →
        ((heapExpand s inc).2 = false ↔ HEAP_MAX < s.heapEnd + ALIGN_UP inc PAGE_SIZE)) := by
  by_cases h : HEAP_MAX < add32 s.heapEnd (ALIGN_UP inc PAGE_SIZE)
  · have he : heapExpand s inc = (s, false) := by
      simp [heapExpand, h]
    refine ⟨rfl, rfl, ?_, ?_, ?_⟩
    · rw [he]
      simp [h]
    · intro _
      rw [he]
    · intro hlt
      rw [add32_eq _ _ hlt] at h
      rw [he]
      simp [h]
  · have he : (heapExpand s inc).2 = true := by
      simp [heapExpand, h]
    refine ⟨rfl, rfl, ?_, ?_, ?_⟩
    · rw [he]
      simp [h]
    · intro hfalse
      rw [he] at hfalse
      cases hfalse
    · intro hlt
      rw [add32_eq _ _ hlt] at h
      rw [he]
      simp [h]

theorem heapExpand_guard_witness :
    (heapExpand KHeapInitialize 0x10000000).2 = false
    ∧ (heapExpand KHeapInitialize 0x10000000).1 = KHeapInitialize :=
  ⟨(heapExpand_guard KHeapInitialize 0x10000000).2.2.1.mpr (by decide),
    (heapExpand_guard KHeapInitialize 0x10000000).2.2.2.1
      ((heapExpand_guard KHeapInitialize 0x10000000).2.2.1.mpr (by decide))⟩

theorem setFreeAt_of_find (addr : Nat) : ∀ (blocks : List Block) (b : Block),
    findBlockAt addr blocks = some b → (setFreeAt addr blocks).2 = some b.size := by
  intro blocks
  induction blocks with
  | nil =>
    intro b h
    simp [findBlockAt] at h
  | cons b0 rest ih =>
    intro b h
    unfold findBlockAt at h
    rw [List.find?_cons] at h
    by_cases hb : b0.addr = addr
    · have hbeq : (b0.addr == addr) = true := beq_iff_eq.mpr hb
      rw [hbeq] at h
      have hb0 : b0 = b := Option.some.inj h
      subst hb0
      simp [setFreeAt, hb]
    · have hbeq : (b0.addr == addr) = false := by
        simp [hb]
      rw [hbeq] at h
      have h2 : findBlockAt addr rest = some b := h
      simp only [setFreeAt, if_neg hb]
      exact ih b h2

/-- C10: KFreeMemory never inspects the free flag.  Freeing a non-null
pointer whose block is already marked free again subtracts the block's
size from usedSize and adds it to freeSize, in wrap-around 32-bit
arithmetic; when usedSize is smaller than the block size the subtraction
wraps modulo 2^32. -/
theorem kfree_double_free_counters (s : HeapState) (p : Nat) (b : Block)
    (hp : p ≠ 0) (hfind : findBlockAt (sub32 p HEADER_SIZE) s.blocks = some b)
    (hfree : b.free = true) :
    (KFreeMemory s p).usedSize = sub32 s.usedSize b.size
    ∧ (KFreeMemory s p).freeSize = add32 s.freeSize b.size
    ∧ (s.usedSize < b.size → b.size < 4294967296 →
        (KFreeMemory s p).usedSize = s.usedSize + 4294967296 - b.size) := by
  have hset : (setFreeAt (sub32 p HEADER_SIZE) s.blocks).2 = some b.size :=
    setFreeAt_of_find _ s.blocks b hfind
  rcases hpair : setFreeAt (sub32 p HEADER_SIZE) s.blocks with ⟨bl, osz⟩
  rw [hpair] at hset
  dsimp only at hset
  subst hset
  have hkf : KFreeMemory s p = { s with
      blocks := heapMergeBlocks bl,
      usedSize := sub32 s.usedSize b.size,
      freeSize := add32 s.freeSize b.size } := by
    unfold KFreeMemory
    rw [if_neg hp, hpair]
  rw [hkf]
  refine ⟨rfl, rfl, ?_⟩
  intro h1 h2
  dsimp only
  unfold sub32
  rw [Nat.mod_eq_of_lt h2]
  omega

theorem kfree_double_free_counters_witness :
    (KFreeMemory (KFreeMemory (KAllocateMemory KHeapInitialize 16).1 5242892) 5242892).usedSize
      = 4293918732
    ∧ (KFreeMemory (KFreeMemory (KAllocateMemory KHeapInitialize 16).1 5242892) 5242892).freeSize
      = 2097116 :=
  ⟨(kfree_double_free_counters (KFreeMemory (KAllocateMemory KHeapInitialize 16).1 5242892)
      5242892 { addr := 5242880, size := 1048564, free := true }
      (by decide) (by decide) (by decide)).1.trans (by decide),
    (kfree_double_free_counters (KFreeMemory (KAllocateMemory KHeapInitialize 16).1 5242892)
      5242892 { addr := 5242880, size := 1048564, free := true }
      (by decide) (by decide) (by decide)).2.1.trans (by decide)⟩

end KHeap

namespace Process

/-- ProcessState from process.h. -/
inductive ProcessState where
  | ready
  | running
  | blocked
  | terminated
deriving DecidableEq, Repr

/-- CpuContext from process.h. -/
structure CpuContext where
  edi : Nat
  esi : Nat
  ebp : Nat
  esp : Nat
  ebx : Nat
  edx : Nat
  ecx : Nat
  eax : Nat
  ds : Nat
  es : Nat
  fs : Nat
  gs : Nat
  eip : Nat
  cs : Nat
  eflags : Nat
  useresp : Nat
  ss : Nat
deriving DecidableEq, Repr

/-- registers_t from isr.h: the canonical trap frame. -/
structure Registers where
  ds : Nat
  edi : Nat
  esi : Nat
  ebp : Nat
  esp : Nat
  ebx : Nat
  edx : Nat
  ecx : Nat
  eax : Nat
  intNo : Nat
  errCode : Nat
  eip : Nat
  cs : Nat
  eflags : Nat
  useresp : Nat
  ss : Nat
deriving DecidableEq, Repr

/-- The fields of the Process PCB (process.h) that the scheduler reads or
writes.  pid, name, mode, the stack bases and priority are never touched
by ProcessSchedule / ProcessExit / ProcessBlock / ProcessUnblock except
for diagnostics, and the next pointer is represented by the position of
the pid in the ready-queue list. -/
structure Process where
  pid : Nat
  state : ProcessState
  context : CpuContext
  timeslice : Nat
  pageDirectory : Nat
deriving DecidableEq, Repr

/-- The static scheduler state of process.c: the PCB store (by pid, the
model of the PCB pointers), currentProcess, the ready queue (head to
tail) and schedulerEnabled. -/
structure SchedState where
  procs : Nat → Process
  current : Option Nat
  queue : List Nat
  schedulerEnabled : Bool

/-- Point-wise update of the PCB store (a store through a PCB pointer). -/
def updateProc (f : Nat → Process) (i : Nat) (p : Process) : Nat → Process :=
  fun j => if j = i then p else f j

/-- saveContext from process.c: mirror the trap frame into the PCB;
es, fs and gs are all taken from the frame's ds. -/
def saveContext (regs : Registers) : CpuContext :=
  { edi := regs.edi, esi := regs.esi, ebp := regs.ebp, esp := regs.esp,
    ebx := regs.ebx, edx := regs.edx, ecx := regs.ecx, eax := regs.eax,
    ds := regs.ds, es := regs.ds, fs := regs.ds, gs := regs.ds,
    eip := regs.eip, cs := regs.cs, eflags := regs.eflags,
    useresp := regs.useresp, ss := regs.ss }

/-- restoreContext from process.c: rewrite the trap frame from the PCB
context; intNo and errCode are left as they are, and the frame has no
es/fs/gs slots. -/
def restoreContext (ctx : CpuContext) (regs : Registers) : Registers :=
  { regs with
    edi := ctx.edi, esi := ctx.esi, ebp := ctx.ebp, esp := ctx.esp,
    ebx := ctx.ebx, edx := ctx.edx, ecx := ctx.ecx, eax := ctx.eax,
    ds := ctx.ds, eip := ctx.eip, cs := ctx.cs, eflags := ctx.eflags,
    useresp := ctx.useresp, ss := ctx.ss }

/-- ProcessSchedule from process.c, acting on the scheduler state and the
trap frame (regs is non-null by construction, discharging the KAssert).
The page-directory switch only loads CR3, hardware state outside this
model.  enqueueProcess appends at the queue tail, dequeueProcess takes
the head. -/
def ProcessSchedule (s : SchedState) (regs : Registers) : SchedState × Registers :=
  match s.current with
  | none => (s, regs)
  | some cur =>
    if s.schedulerEnabled = false then (s, regs)
    else
      let c := s.procs cur
      let s1 :=
        if c.state = ProcessState.running then
          let t := sub32 c.timeslice 1
          let t := if t = 0 then 10 else t
          let c1 := { c with context := saveContext regs,
                             state := ProcessState.ready, timeslice := t }
          { s with procs := updateProc s.procs cur c1, queue := s.queue ++ [cur] }
        else
          -- PROCESS_STATE_TERMINATED (and any other non-running state):
          -- no context save, no re-queue
          s
      match s1.queue with
      | [] =>
        let c2 := { s1.procs cur with state := ProcessState.running }
        ({ s1 with procs := updateProc s1.procs cur c2 }, regs)
      | n :: rest =>
        let nx := { s1.procs n with state := ProcessState.running, timeslice := 10 }
        ({ s1 with procs := updateProc s1.procs n nx,
                   current := some n, queue := rest },
          restoreContext nx.context regs)

/-- ProcessExit from process.c: mark the current process TERMINATED (the
hlt loop that follows only waits for the next tick). -/
def ProcessExit (s : SchedState) : SchedState :=
  match s.current with
  | none => s
  | some cur =>
    let c1 := { s.procs cur with state := ProcessState.terminated }
    { s with procs := updateProc s.procs cur c1 }

/-- ProcessBlock from process.c: mark the current process BLOCKED; the
ProcessYield software interrupt then enters ProcessSchedule, which is a
separate step of the model. -/
def ProcessBlock (s : SchedState) : SchedState :=
  match s.current with
  | none => s
  | some cur =>
    if s.schedulerEnabled = false then s
    else
      let c1 := { s.procs cur with state := ProcessState.blocked }
      { s with procs := updateProc s.procs cur c1 }

/-- ProcessUnblock from process.c. -/
def ProcessUnblock (s : SchedState) (p : Nat) : SchedState :=
  if (s.procs p).state = ProcessState.blocked then
    let c1 := { s.procs p with state := ProcessState.ready }
    { s with procs := updateProc s.procs p c1, queue := s.queue ++ [p] }
  else s

/-- A CpuContext with every register set to n. -/
def ctxOf (n : Nat) : CpuContext :=
  { edi := n, esi := n, ebp := n, esp := n, ebx := n, edx := n, ecx := n,
    eax := n, ds := n, es := n, fs := n, gs := n, eip := n, cs := n,
    eflags := n, useresp := n, ss := n }

/-- A trap frame with every register set to n. -/
def regsOf (n : Nat) : Registers :=
  { ds := n, edi := n, esi := n, ebp := n, esp := n, ebx := n, edx := n,
    ecx := n, eax := n, intNo := 0, errCode := 0, eip := n, cs := n,
    eflags := n, useresp := n, ss := n }

/-- A demo PCB. -/
def procOf (pid : Nat) (st : ProcessState) (n : Nat) : Process :=
  { pid := pid, state := st, context := ctxOf n, timeslice := 10,
    pageDirectory := 0 }

/-- A scheduler state in which pid 0 runs with an empty ready queue and
pid 1 is blocked: pid 0 is about to call ProcessExit. -/
def schedDemoState : SchedState :=
  { procs := fun i => if i = 1 then procOf 1 ProcessState.blocked 200
      else procOf 0 ProcessState.running 100,
    current := some 0, queue := [], schedulerEnabled := true }

/-- pid 0 calls ProcessExit with the ready queue empty. -/
def schedDemoAfterExit : SchedState := ProcessExit schedDemoState

/-- First timer tick after the exit: the queue is still empty. -/
def schedDemoTick1 : SchedState × Registers :=
  ProcessSchedule schedDemoAfterExit (regsOf 1)

/-- pid 1 is unblocked before the next tick. -/
def schedDemoUnblocked : SchedState := ProcessUnblock schedDemoTick1.1 1

/-- Second timer tick. -/
def schedDemoTick2 : SchedState × Registers :=
  ProcessSchedule schedDemoUnblocked (regsOf 2)

/-- Third timer tick. -/
def schedDemoTick3 : SchedState × Registers :=
  ProcessSchedule schedDemoTick2.1 (regsOf 3)

/-- C6 fails on the code: after pid 0 calls ProcessExit (state
TERMINATED) with the ready queue empty, the next ProcessSchedule finds no
ready process and unconditionally sets currentProcess->state back to
RUNNING; on the following tick the revived process is treated as RUNNING,
re-enqueued on the ready queue, and one tick later it is dequeued, made
current again and its saved context is restored into the trap frame -
contradicting process.c's own comment "The scheduler will see we're
terminated and won't reschedule us". -/
theorem terminated_process_redispatched :
    (schedDemoAfterExit.procs 0).state = ProcessState.terminated
    ∧ (schedDemoTick1.1.procs 0).state = ProcessState.running
    ∧ schedDemoTick2.1.queue = [0]
    ∧ schedDemoTick3.1.current = some 0
    ∧ (schedDemoTick3.1.procs 0).state = ProcessState.running
    ∧ schedDemoTick3.2 = restoreContext (saveContext (regsOf 2)) (regsOf 3) := by
  decide

/-- C1: one ProcessSchedule step with the scheduler enabled and a current
process behaves as specified.  RUNNING current: the frame is mirrored
into the saved context, the state becomes READY, the timeslice is
decremented (reset to 10 at 0) and the process is enqueued at the tail;
then the queue head is dequeued and dispatched: its context is copied
into the frame, it becomes RUNNING with timeslice 10 and becomes current
(with an empty prior queue the dequeued process is the current one
itself).  TERMINATED current: no mirror, no requeue; with an empty queue
the current process is set back to RUNNING and the routine returns with
current and frame unchanged, otherwise the head is dispatched. -/
theorem processSchedule_spec (s : SchedState) (regs : Registers) (cur : Nat)
    (hen : s.schedulerEnabled = true) (hcur : s.current = some cur)
    (hnq : cur ∉ s.queue) :
    ((s.procs cur).state = ProcessState.running →
      (s.queue = [] →
        (ProcessSchedule s regs).1.current = some cur
        ∧ (ProcessSchedule s regs).1.queue = []
        ∧ (ProcessSchedule s regs).1.procs cur
            = { s.procs cur with
                context := saveContext regs
                state := ProcessState.running
                timeslice := 10 }
        ∧ (ProcessSchedule s regs).2 = restoreContext (saveContext regs) regs)
      ∧ (∀ d rest, s.queue = d :: rest →
        (ProcessSchedule s regs).1.procs cur
            = { s.procs cur with
                context := saveContext regs
                state := ProcessState.ready
                timeslice := if sub32 (s.procs cur).timeslice 1 = 0 then 10
                  else sub32 (s.procs cur).timeslice 1 }
        ∧ (ProcessSchedule s regs).1.current = some d
        ∧ (ProcessSchedule s regs).1.procs d
            = { s.procs d with
                state := ProcessState.running
                timeslice := 10 }
        ∧ (ProcessSchedule s regs).1.queue = rest ++ [cur]
        ∧ (ProcessSchedule s regs).2 = restoreContext (s.procs d).context regs))
    ∧ ((s.procs cur).state = ProcessState.terminated →
      ((ProcessSchedule s regs).1.procs cur).context = (s.procs cur).context
      ∧ cur ∉ (ProcessSchedule s regs).1.queue
      ∧ (s.queue = [] →
        (ProcessSchedule s regs).1.current = some cur
        ∧ ((ProcessSchedule s regs).1.procs cur).state = ProcessState.running
        ∧ (ProcessSchedule s regs).2 = regs)
      ∧ (∀ d rest, s.queue = d :: rest →
        (ProcessSchedule s regs).1.procs cur = s.procs cur
        ∧ (ProcessSchedule s regs).1.current = some d
        ∧ (ProcessSchedule s regs).1.procs d
            = { s.procs d with
                state := ProcessState.running
                timeslice := 10 }
        ∧ (ProcessSchedule s regs).1.queue = rest
        ∧ (ProcessSchedule s regs).2 = restoreContext (s.procs d).context regs)) := by
  constructor
  · intro hrun
    constructor
    · intro hq
      refine ⟨?_, ?_, ?_, ?_⟩ <;>
        simp [ProcessSchedule, hcur, hen, hrun, hq, updateProc]
    · intro d rest hq
      have hdc : ¬(cur = d) := by
        intro h
        exact hnq (by rw [hq, h]; exact List.mem_cons_self d rest)
      have hdc2 : ¬(d = cur) := fun h => hdc h.symm
      refine ⟨?_, ?_, ?_, ?_, ?_⟩ <;>
        simp [ProcessSchedule, hcur, hen, hrun, hq, updateProc, hdc, hdc2]
  · intro hterm
    have hrunF : ¬((s.procs cur).state = ProcessState.running) := by
      rw [hterm]
      intro h
      cases h
    rcases hq : s.queue with _ | ⟨d, rest⟩
    · refine ⟨?_, ?_, ?_, ?_⟩ <;>
        simp [ProcessSchedule, hcur, hen, hrunF, hq, updateProc]
    · have hdc : ¬(cur = d) := by
        intro h
        exact hnq (by rw [hq, h]; exact List.mem_cons_self d rest)
      have hdc2 : ¬(d = cur) := fun h => hdc h.symm
      have hcr : cur ∉ rest := by
        intro h
        exact hnq (by rw [hq]; exact List.mem_cons_of_mem d h)
      refine ⟨?_, ?_, ?_, ?_⟩
      · simp [ProcessSchedule, hcur, hen, hrunF, hq, updateProc, hdc, hdc2]
      · simp [ProcessSchedule, hcur, hen, hrunF, hq, updateProc, hdc, hdc2, hcr]
      · intro hcontra
        cases hcontra
      · intro d2 rest2 hq2
        obtain ⟨hd2, hrest2⟩ : d = d2 ∧ rest = rest2 := by
          cases hq2
          exact ⟨rfl, rfl⟩
        subst hd2
        subst hrest2
        refine ⟨?_, ?_, ?_, ?_, ?_⟩ <;>
          simp [ProcessSchedule, hcur, hen, hrunF, hq, updateProc, hdc, hdc2]

/-- C9: when the current process's state is not RUNNING at the schedule
point (for example BLOCKED after ProcessBlock), ProcessSchedule mirrors
nothing: the saved context of every PCB, in particular the blocked
current one, is left completely unchanged, so a later unblock dispatches
it with the context captured at its last preemption. -/
theorem processSchedule_preserves_saved_context (s : SchedState)
    (regs : Registers) (cur p : Nat)
    (hen : s.schedulerEnabled = true) (hcur : s.current = some cur)
    (hst : (s.procs cur).state ≠ ProcessState.running) :
    ((ProcessSchedule s regs).1.procs p).context = (s.procs p).context := by
  rcases hq : s.queue with _ | ⟨n, rest⟩
  · simp only [ProcessSchedule, hcur, hen]
    simp [hst, hq, updateProc]
    split_ifs with hp
    · subst hp
      rfl
    · rfl
  · simp only [ProcessSchedule, hcur, hen]
    simp [hst, hq, updateProc]
    split_ifs with hp
    · subst hp
      rfl
    · rfl

/-- A scheduler state with a RUNNING current process (pid 0) and pid 1
READY on the queue. -/
def schedRunState : SchedState :=
  { procs := fun i => if i = 1 then procOf 1 ProcessState.ready 200
      else procOf 0 ProcessState.running 100,
    current := some 0, queue := [1], schedulerEnabled := true }

theorem processSchedule_spec_witness :
    (ProcessSchedule schedRunState (regsOf 7)).1.current = some 1
    ∧ (ProcessSchedule schedRunState (regsOf 7)).1.queue = [0]
    ∧ (ProcessSchedule schedRunState (regsOf 7)).2
        = restoreContext (schedRunState.procs 1).context (regsOf 7) :=
  ⟨(((processSchedule_spec schedRunState (regsOf 7) 0 rfl rfl (by decide)).1
      (by decide)).2 1 [] rfl).2.1,
   (((processSchedule_spec schedRunState (regsOf 7) 0 rfl rfl (by decide)).1
      (by decide)).2 1 [] rfl).2.2.2.1,
   (((processSchedule_spec schedRunState (regsOf 7) 0 rfl rfl (by decide)).1
      (by decide)).2 1 [] rfl).2.2.2.2⟩

/-- A scheduler state whose current process (pid 0) has just blocked. -/
def schedBlockedState : SchedState :=
  { procs := fun _ => procOf 0 ProcessState.blocked 50,
    current := some 0, queue := [], schedulerEnabled := true }

theorem processSchedule_preserves_saved_context_witness :
    ((ProcessSchedule schedBlockedState (regsOf 9)).1.procs 0).context
      = (schedBlockedState.procs 0).context :=
  processSchedule_preserves_saved_context schedBlockedState (regsOf 9) 0 0
    rfl rfl (by decide)

end Process

end ClankerOS
